import Mathlib

/-!
Verification development for the python_ansible_lvt repository: shallow
embeddings of the device-batch runner scripts, the inventory loader, the
reachability checker and the interactive NETCONF orchestrator
(adv_netconf_using_ncclient.py), together with theorems settling the
behavioural claims about them.  Interactive input, the network and the
filesystem are modelled as explicit oracles (lists of input lines,
per-port/per-RPC outcome functions, parsed file contents); printed output
and issued RPCs are modelled as event traces.
-/

namespace PyLvt

/-! ## Python string primitives used by the scripts -/

/-- Whitespace recognised by Python str.strip (the ASCII whitespace set). -/
def isSpace (c : Char) : Bool :=
  c == ' ' || c == '\t' || c == '\n' || c == '\r' || c == '\x0b' || c == '\x0c'

/-- Python str.strip(): drop leading and trailing whitespace characters. -/
def pyStrip (l : List Char) : List Char :=
  ((l.dropWhile isSpace).reverse.dropWhile isSpace).reverse

/-- String-level wrapper of pyStrip. -/
def pyStripStr (s : String) : String := ⟨pyStrip s.data⟩

/-- Python substring containment (the in operator on str): pat occurs in s. -/
def containsSubstr (s pat : List Char) : Bool :=
  s.tails.any (fun t => pat.isPrefixOf t)

/-- String-level substring containment. -/
def strContains (s pat : String) : Bool := containsSubstr s.data pat.data

/-- Number of occurrences of pat in s, counted by start position
(equivalently, by the suffix of s the occurrence is a prefix of). -/
def occCount (pat s : List Char) : Nat :=
  (s.tails.filter (fun t => pat.isPrefixOf t)).length

/-- Python str.replace(pat, rep, 1): replace the first occurrence of pat
(if any) by rep, leaving everything else unchanged. -/
def replaceFirst (pat rep : List Char) : List Char → List Char
  | [] => []
  | c :: rest =>
    if pat.isPrefixOf (c :: rest) then rep ++ (c :: rest).drop pat.length
    else c :: replaceFirst pat rep rest

/-- Python "\n".join(lines). -/
def joinLines : List String → String
  | [] => ""
  | [l] => l
  | l :: ls => l ++ "\n" ++ joinLines ls

/-! ## Reachability checker (run_scripts/tools/check_reachability_utils.py) -/

/-- The shell command built by run_ping_check for one IP
(f-string "ping -c 1 ip > /dev/null 2>&1"). -/
def pingCmd (ip : String) : String := "ping -c 1 " ++ ip ++ " > /dev/null 2>&1"

/-- Observable events of run_ping_check: a shell command handed to
os.system, or a printed status line. -/
inductive PingEv
  | system (cmd : String)
  | line (msg : String)
deriving DecidableEq, Repr

/-- Whether a PingEv is a shell-command event. -/
def PingEv.isSystem : PingEv → Bool
  | .system _ => true
  | .line _ => false

/-- Whether a PingEv is a printed status line. -/
def PingEv.isLine : PingEv → Bool
  | .system _ => false
  | .line _ => true

/-- run_ping_check from check_reachability_utils.py: for each IP it runs
one ping command through os.system and prints one status line decided by
the command's exit status.  exitCode is the oracle giving the exit status
os.system returns for a shell command (os.system itself never raises on a
failing command). -/
def run_ping_check (exitCode : String → Nat) : List String → List PingEv
  | [] => []
  | ip :: rest =>
    PingEv.system (pingCmd ip) ::
    PingEv.line (if exitCode (pingCmd ip) = 0 then "✅ " ++ ip ++ " is reachable."
                 else "❌ " ++ ip ++ " is NOT reachable.") ::
    run_ping_check exitCode rest

/-! ## Inventory loader (run_scripts/tools/inventory_utils.py) -/

/-- YAML values as produced by yaml.safe_load. -/
inductive Yaml
  | str (s : String)
  | num (n : Int)
  | boolean (b : Bool)
  | seq (items : List Yaml)
  | dict (entries : List (String × Yaml))
  | null

/-- Failure modes of the loader: open() raising FileNotFoundError,
yaml.safe_load raising a parse error, subscripting a non-mapping raising
TypeError, and a missing key raising KeyError.  The spec's taxonomy groups
all of these as LoadError. -/
inductive LoadError
  | fileNotFound
  | yamlParseError
  | typeError
  | keyError (key : String)
deriving DecidableEq, Repr

/-- Python dict lookup on the entry list of a parsed YAML mapping. -/
def lookupKey (entries : List (String × Yaml)) (k : String) : Option Yaml :=
  (entries.find? (fun e => e.1 == k)).map (fun e => e.2)

/-- load_devices_from_yaml from inventory_utils.py.  The argument models
the combined result of open(path) and yaml.safe_load: an error if the file
is missing or malformed, otherwise the parsed document.  The function
returns data with the subscript "devices" applied, exactly as the source
does, performing no inspection of the returned value. -/
def load_devices_from_yaml (fileContents : Except LoadError Yaml) : Except LoadError Yaml :=
  match fileContents with
  | .error e => .error e
  | .ok (.dict entries) =>
    match lookupKey entries "devices" with
    | some v => .ok v
    | none => .error (.keyError "devices")
  | .ok _ => .error .typeError

/-! ## Broken runner loops (for claim C1) -/

/-- Errors escaping a per-device iteration. -/
inductive PyError
  | typeError
  | connectionError
deriving DecidableEq, Repr

/-- Python positional-call semantics: calling a function that declares
params required positional parameters with args positional arguments
raises TypeError before the body runs. -/
def callPositional (params args : Nat) (body : Except PyError Unit) : Except PyError Unit :=
  if args = params then body else Except.error PyError.typeError

/-- show_utils.run_show_commands declares 4 required positional parameters
(device, commands, username, password). -/
def run_show_commands_params : Nat := 4

/-- run_show_commands.py line 24 passes 2 positional arguments
(d, commands). -/
def run_show_commands_args : Nat := 2

/-- The module-level device loop of run_show_commands.py (lines 22-24).
The loop body calls run_show_commands with two of its four required
arguments and has no try/except, so an uncaught error aborts the whole
loop.  Returns how many devices were fully processed and the error that
escaped, if any.  The callee body is modelled as succeeding, which only
strengthens the result: the TypeError is raised before the body can run. -/
def runShowScriptLoop : List String → Nat × Option PyError
  | [] => (0, none)
  | _ :: ds =>
    match callPositional run_show_commands_params run_show_commands_args (Except.ok ()) with
    | Except.ok _ => ((runShowScriptLoop ds).1 + 1, (runShowScriptLoop ds).2)
    | Except.error e => (0, some e)

/-- The device loop of basic_scripts/netmiko_using_for_loops_err_handling.py
(lines 62-69): ConnectHandler and send_command run with no try/except
around them, so a connection failure propagates and aborts the loop.
connOk tells whether connecting to a host succeeds.  Returns the hostnames
processed to completion and the error that aborted the loop, if any. -/
def netmikoErrHandlingLoop (connOk : String → Bool) : List (String × String) → List String × Option PyError
  | [] => ([], none)
  | d :: ds =>
    if connOk d.2 then
      ((netmikoErrHandlingLoop connOk ds).1.cons d.1, (netmikoErrHandlingLoop connOk ds).2)
    else ([], some PyError.connectionError)

/-! ## Theorems: claims C1, C4, C8, C9 -/

/-- Claim C1 (code_bug evidence): the claim says a failure while
processing device i never prevents the runners from processing devices
i+1..N.  The code violates this.  In
basic_scripts/netmiko_using_for_loops_err_handling.py the loop has no
try/except, so with the script's own device list a connection failure on
the first device (10.0.0.51) aborts the run and the second device is never
processed.  In run_show_commands.py every iteration calls
run_show_commands with 2 of its 4 required positional arguments, so the
first iteration raises an uncaught TypeError and devices 2..N are never
processed. -/
theorem claim_C1 :
    netmikoErrHandlingLoop (fun ip => ip != "10.0.0.51")
        [("C8K-R51", "10.0.0.51"), ("C8K-R52", "10.0.0.52")]
      = ([], some PyError.connectionError)
    ∧ runShowScriptLoop ["10.0.0.51", "10.0.0.52"] = (0, some PyError.typeError) := by
  constructor
  · rfl
  · rfl

/-- Claim C4, counterexample to the claim as stated: the claim says the
loader performs no validation of record fields beyond requiring a host
key, but the loader does not require a host key either.  Loading a
document whose single device record has only a hostname field (no host)
succeeds and returns the record unchanged. -/
theorem claim_C4_counterexample :
    load_devices_from_yaml
        (Except.ok (Yaml.dict [("devices", Yaml.seq [Yaml.dict [("hostname", Yaml.str "C8K-R51")]])]))
      = Except.ok (Yaml.seq [Yaml.dict [("hostname", Yaml.str "C8K-R51")]]) := by
  rfl

/-- Claim C4 (amended): the loader maps a document that is a mapping with
a devices key to the sequence stored under that key, verbatim and in
order; a missing or malformed file fails with the corresponding error and
a mapping without the devices key fails with a KeyError, producing no
partial device list; and it performs no validation of record fields at
all, not even requiring a host key (the value under devices is returned
unchanged). -/
theorem claim_C4 :
    (∀ e : LoadError, load_devices_from_yaml (Except.error e) = Except.error e)
    ∧ (∀ (entries : List (String × Yaml)) (devs : Yaml),
        lookupKey entries "devices" = some devs →
        load_devices_from_yaml (Except.ok (Yaml.dict entries)) = Except.ok devs)
    ∧ (∀ entries : List (String × Yaml),
        lookupKey entries "devices" = none →
        load_devices_from_yaml (Except.ok (Yaml.dict entries)) = Except.error (LoadError.keyError "devices")) := by
  refine ⟨fun e => rfl, ?_, ?_⟩
  · intro entries devs h
    simp [load_devices_from_yaml, h]
  · intro entries h
    simp [load_devices_from_yaml, h]

/-- Claim C4, witness: the amended theorem applied to a concrete inventory
with two records, returning them in order. -/
theorem claim_C4_witness :
    load_devices_from_yaml
        (Except.ok (Yaml.dict [("devices",
          Yaml.seq [Yaml.dict [("host", Yaml.str "10.0.0.51")],
                    Yaml.dict [("host", Yaml.str "10.0.0.52")]])]))
      = Except.ok (Yaml.seq [Yaml.dict [("host", Yaml.str "10.0.0.51")],
                             Yaml.dict [("host", Yaml.str "10.0.0.52")]]) :=
  claim_C4.2.1
    [("devices", Yaml.seq [Yaml.dict [("host", Yaml.str "10.0.0.51")],
                           Yaml.dict [("host", Yaml.str "10.0.0.52")]])]
    (Yaml.seq [Yaml.dict [("host", Yaml.str "10.0.0.51")],
               Yaml.dict [("host", Yaml.str "10.0.0.52")]])
    (by rfl)

/-- Claim C8, counterexample to the claim as stated: the claim says each
ICMP echo is issued with a short timeout, but the command run_ping_check
builds contains no timeout option at all (no -W, no -w, no timeout word);
it only limits the echo count with -c 1. -/
theorem claim_C8_counterexample :
    pingCmd "10.0.0.1" = "ping -c 1 10.0.0.1 > /dev/null 2>&1"
    ∧ strContains (pingCmd "10.0.0.1") "-W" = false
    ∧ strContains (pingCmd "10.0.0.1") "-w" = false
    ∧ strContains (pingCmd "10.0.0.1") "timeout" = false := by
  refine ⟨rfl, ?_, ?_, ?_⟩ <;> decide

/-- Claim C8 (amended): for every list of IPs, the reachability checker
issues exactly one ping per IP, in order (a single ping -c 1 invocation
per IP, with no explicit timeout option and no retry), prints exactly one
status line per IP, classifies each IP purely by the ping process's exit
status (reachable iff exit status 0), and reports unreachable IPs as NOT
reachable without raising (run_ping_check is total: os.system returns the
exit status instead of raising). -/
theorem claim_C8 (exitCode : String → Nat) (ips : List String) :
    (run_ping_check exitCode ips).filter PingEv.isSystem
      = ips.map (fun ip => PingEv.system (pingCmd ip))
    ∧ (run_ping_check exitCode ips).filter PingEv.isLine
      = ips.map (fun ip =>
          PingEv.line (if exitCode (pingCmd ip) = 0 then "✅ " ++ ip ++ " is reachable."
                       else "❌ " ++ ip ++ " is NOT reachable.")) := by
  induction ips with
  | nil => exact ⟨rfl, rfl⟩
  | cons ip rest ih =>
    refine ⟨?_, ?_⟩ <;>
      simp [run_ping_check, List.filter_cons, PingEv.isSystem, PingEv.isLine, ih.1, ih.2]

/-! ## Multi-line input reading (adv_netconf_using_ncclient.py, lines
278-285 and 298-304) -/

/-- The multi-line input loop of the orchestrator: read lines until one
whose stripped content is END, collecting the preceding lines unmodified.
Returns none if the input is exhausted first (input() would raise
EOFError). -/
def readUntilEnd : List String → Option (List String)
  | [] => none
  | l :: ls =>
    if pyStripStr l = "END" then some []
    else (readUntilEnd ls).map (fun pre => l :: pre)

/-- Claim C9, counterexample to the claim as stated: the claim says a line
with any content other than exactly END is appended to the payload, but a
line reading "  END" (leading whitespace, so not exactly END) terminates
the input instead of being appended, because the code compares
line.strip() with END. -/
theorem claim_C9_counterexample :
    readUntilEnd ["interface Loopback1", "  END", "description x"]
      = some ["interface Loopback1"]
    ∧ "  END" ≠ "END" := by
  refine ⟨?_, ?_⟩ <;> decide

/-- Claim C9 (amended): the free-form multi-line input is terminated by
the first line whose content, after stripping leading and trailing
whitespace, is exactly END; reading stops at that line, the (unstripped)
lines before it form the payload in order, and a line whose stripped
content differs from END is appended rather than terminating input.  If
no such line exists the read never completes (EOFError on exhausted
input). -/
theorem claim_C9 (lines : List String) :
    readUntilEnd lines
      = if lines.any (fun l => pyStripStr l == "END")
        then some (lines.takeWhile (fun l => !(pyStripStr l == "END")))
        else none := by
  induction lines with
  | nil => rfl
  | cons l ls ih =>
    by_cases h : pyStripStr l = "END"
    · simp [readUntilEnd, h, List.takeWhile_cons]
    · simp [readUntilEnd, h, List.takeWhile_cons, ih]

/-! ## NETCONF orchestrator (netconf/adv_netconf_using_ncclient.py) -/

/-- Observable network events of the orchestrator: a TCP reachability
probe of a port (port_open), a NETCONF-over-SSH handshake attempt
(manager.connect), the candidate-datastore RPCs, a close-session attempt,
the pre-loop abort print when the pasted payload lacks a config element,
and an EOFError raised by input() on exhausted input. -/
inductive Ev
  | tcpProbe (port : Nat)
  | hsAttempt (port : Nat)
  | lockA
  | editA
  | validateA
  | commitA
  | discardA
  | unlockA
  | closeA
  | abortNoConfig
  | eofError
deriving DecidableEq, Repr

/-- connect_netconf (lines 94-130): walk the port list in order; for each
port first run the TCP pre-check port_open, skipping the handshake when
the port is closed; attempt the handshake on open ports, catching every
handshake failure and moving on; stop at the first successful handshake,
returning the port used; none (the raised exception) only after the whole
list is exhausted.  tcpOpen and hsOk are the oracles for the outcome of
port_open and of manager.connect on each port. -/
def connect_netconf (tcpOpen hsOk : Nat → Bool) : List Nat → List Ev × Option Nat
  | [] => ([], none)
  | p :: ps =>
    if tcpOpen p then
      if hsOk p then ([Ev.tcpProbe p, Ev.hsAttempt p], some p)
      else (Ev.tcpProbe p :: Ev.hsAttempt p :: (connect_netconf tcpOpen hsOk ps).1,
            (connect_netconf tcpOpen hsOk ps).2)
    else (Ev.tcpProbe p :: (connect_netconf tcpOpen hsOk ps).1,
          (connect_netconf tcpOpen hsOk ps).2)

/-- The default port list of connect_netconf: ports=(830, 22). -/
def netconfPorts : List Nat := [830, 22]

/-- Outcome of one RPC as seen by the except clauses of the script: ok,
an RPCError (the only class most handlers catch), or any other
exception. -/
inductive Res
  | ok
  | rpcErr
  | otherErr
deriving DecidableEq, Repr

/-- Outcome of edit-config, whose handler catches RPCError and XMLError. -/
inductive EditRes
  | ok
  | rpcErr
  | xmlErr
  | otherErr
deriving DecidableEq, Repr

/-- The two answers of the commit-or-rollback menu. -/
inductive Choice
  | commit
  | rollback
deriving DecidableEq, Repr

/-- commit_or_rollback (lines 212-228): re-prompt until the stripped input
is 1 (commit) or 2 (rollback); none models exhausted input (input() would
raise EOFError). -/
def commit_or_rollback : List String → Option Choice
  | [] => none
  | c :: rest =>
    if pyStripStr c = "1" then some Choice.commit
    else if pyStripStr c = "2" then some Choice.rollback
    else commit_or_rollback rest

/-- Capability check (line 347): any advertised capability string
containing the substring ":candidate". -/
def hasCandidate (caps : List String) : Bool :=
  caps.any (fun c => strContains c ":candidate")

/-- Capability check (line 348): any advertised capability string
containing the substring ":validate". -/
def hasValidate (caps : List String) : Bool :=
  caps.any (fun c => strContains c ":validate")

/-- Per-device environment for one changes-mode iteration: oracles for the
TCP pre-check and handshake on each port, the advertised capabilities, the
outcome of each RPC, and the operator's menu input lines. -/
structure DevEnv where
  tcpOpen : Nat → Bool
  hsOk : Nat → Bool
  caps : List String
  lockRes : Res
  editRes : EditRes
  validateRes : Res
  menuInputs : List String
  commitRes : Res
  discardRes : Res
  unlockRes : Res
  closeRes : Res

/-- Whether the chosen menu action raises an exception its handler does
not catch (both the commit handler at line 451/480 and the
discard-changes handler at line 458/487 catch RPCError only). -/
def menuActionAborts (e : DevEnv) : Choice → Bool
  | Choice.commit => e.commitRes == Res.otherErr
  | Choice.rollback => e.discardRes == Res.otherErr

/-- The part of the changes workflow after a successful edit-config
(lines 436-495 plus the finally block at 497-503): optional validate; on
validation RPCError, the commit-or-rollback menu followed by unlock
(catching every exception) and a bare close (line 469) whose failure
escapes after the finally block's second close attempt; on validation
success or skip, the menu, unlock (catching RPCError only) and the finally
block's single close (always caught).  The Bool is true when an uncaught
exception escapes the device iteration. -/
def afterEdit (ctr : List Ev) (e : DevEnv) : List Ev × Bool :=
  let hv := hasValidate e.caps
  let vtr := if hv then [Ev.validateA] else []
  let pre := ctr ++ [Ev.lockA, Ev.editA] ++ vtr
  match (if hv then e.validateRes else Res.ok) with
  | Res.otherErr => (pre ++ [Ev.closeA], true)
  | Res.rpcErr =>
    match commit_or_rollback e.menuInputs with
    | none => (pre ++ [Ev.closeA], true)
    | some ch =>
      if menuActionAborts e ch then
        (pre ++ (match ch with | Choice.commit => [Ev.commitA] | Choice.rollback => [Ev.discardA])
             ++ [Ev.closeA], true)
      else
        (pre ++ (match ch with | Choice.commit => [Ev.commitA] | Choice.rollback => [Ev.discardA])
             ++ [Ev.unlockA, Ev.closeA, Ev.closeA], e.closeRes != Res.ok)
  | Res.ok =>
    match commit_or_rollback e.menuInputs with
    | none => (pre ++ [Ev.closeA], true)
    | some ch =>
      if menuActionAborts e ch then
        (pre ++ (match ch with | Choice.commit => [Ev.commitA] | Choice.rollback => [Ev.discardA])
             ++ [Ev.closeA], true)
      else
        match e.unlockRes with
        | Res.otherErr =>
          (pre ++ (match ch with | Choice.commit => [Ev.commitA] | Choice.rollback => [Ev.discardA])
               ++ [Ev.unlockA, Ev.closeA], true)
        | _ =>
          (pre ++ (match ch with | Choice.commit => [Ev.commitA] | Choice.rollback => [Ev.discardA])
               ++ [Ev.unlockA, Ev.closeA], false)

/-- One changes-mode device iteration of main (lines 320-503): connect
(every failure caught, iteration ends); capability check, closing without
any candidate RPC when :candidate is missing (bare close at line 357);
lock (RPCError caught and followed by a bare close at line 407, any other
exception escaping uncaught); edit-config (RPCError/XMLError caught and
followed by discard, unlock, close at lines 419-434, any other exception
running only the finally block's close); then afterEdit.  The Bool is true
when an uncaught exception escapes and aborts the whole device loop. -/
def deviceChanges (e : DevEnv) : List Ev × Bool :=
  match (connect_netconf e.tcpOpen e.hsOk netconfPorts).2 with
  | none => ((connect_netconf e.tcpOpen e.hsOk netconfPorts).1, false)
  | some _ =>
    let ctr := (connect_netconf e.tcpOpen e.hsOk netconfPorts).1
    if hasCandidate e.caps then
      match e.lockRes with
      | Res.otherErr => (ctr ++ [Ev.lockA], true)
      | Res.rpcErr => (ctr ++ [Ev.lockA, Ev.closeA], e.closeRes != Res.ok)
      | Res.ok =>
        match e.editRes with
        | EditRes.otherErr => (ctr ++ [Ev.lockA, Ev.editA, Ev.closeA], true)
        | EditRes.rpcErr =>
          (ctr ++ [Ev.lockA, Ev.editA, Ev.discardA, Ev.unlockA, Ev.closeA, Ev.closeA],
           e.closeRes != Res.ok)
        | EditRes.xmlErr =>
          (ctr ++ [Ev.lockA, Ev.editA, Ev.discardA, Ev.unlockA, Ev.closeA, Ev.closeA],
           e.closeRes != Res.ok)
        | EditRes.ok => afterEdit ctr e
    else
      (ctr ++ [Ev.closeA], e.closeRes != Res.ok)

/-- The device loop of main in changes mode: process devices in order,
stopping only when an iteration lets an exception escape. -/
def loopDevices (env : String → DevEnv) : List String → List Ev
  | [] => []
  | d :: ds =>
    if (deviceChanges (env d)).2 then (deviceChanges (env d)).1
    else (deviceChanges (env d)).1 ++ loopDevices env ds

/-- The changes-mode flow of main (lines 292-320 and the device loop):
read the payload lines up to END, join and strip them; if the result does
not contain the substring "&lt;config", print the failure message and
return before any network activity (the abortNoConfig event); otherwise
normalize the payload with normalize_config_xml and run the device loop.
The normalized payload is what edit-config sends; it does not influence
which events occur. -/
def main_changes (inputLines : List String) (devices : List String)
    (env : String → DevEnv) : List Ev :=
  match readUntilEnd inputLines with
  | none => [Ev.eofError]
  | some pre =>
    if strContains (pyStripStr (joinLines pre)) "<config" = false then [Ev.abortNoConfig]
    else loopDevices env devices

/-! ### Helper lemmas about the connect trace -/

/-- Every event in connect_netconf's trace is a TCP probe or a handshake
attempt. -/
theorem connect_trace_shape (tcpOpen hsOk : Nat → Bool) :
    ∀ (ports : List Nat) (ev : Ev), ev ∈ (connect_netconf tcpOpen hsOk ports).1 →
      (∃ q, ev = Ev.tcpProbe q) ∨ (∃ q, ev = Ev.hsAttempt q) := by
  intro ports
  induction ports with
  | nil => intro ev h; simp [connect_netconf] at h
  | cons p ps ih =>
    intro ev h
    by_cases h1 : tcpOpen p = true
    · by_cases h2 : hsOk p = true
      · simp [connect_netconf, h1, h2] at h
        rcases h with h | h
        · exact Or.inl ⟨p, h⟩
        · exact Or.inr ⟨p, h⟩
      · simp [connect_netconf, h1, h2] at h
        rcases h with h | h | h
        · exact Or.inl ⟨p, h⟩
        · exact Or.inr ⟨p, h⟩
        · exact ih ev h
    · simp [connect_netconf, h1] at h
      rcases h with h | h
      · exact Or.inl ⟨p, h⟩
      · exact ih ev h

/-- The candidate-datastore RPC events never occur in a connect trace. -/
theorem rpc_not_mem_connect_trace (tcpOpen hsOk : Nat → Bool) (ports : List Nat) (ev : Ev)
    (hp : ∀ q, ev ≠ Ev.tcpProbe q) (hh : ∀ q, ev ≠ Ev.hsAttempt q) :
    ev ∉ (connect_netconf tcpOpen hsOk ports).1 := by
  intro hmem
  rcases connect_trace_shape tcpOpen hsOk ports ev hmem with ⟨q, hq⟩ | ⟨q, hq⟩
  · exact hp q hq
  · exact hh q hq

/-- A handshake is only ever attempted on a port whose TCP pre-check
succeeded. -/
theorem connect_hs_requires_open (tcpOpen hsOk : Nat → Bool) :
    ∀ (ports : List Nat) (p : Nat),
      Ev.hsAttempt p ∈ (connect_netconf tcpOpen hsOk ports).1 → tcpOpen p = true := by
  intro ports
  induction ports with
  | nil => intro p h; simp [connect_netconf] at h
  | cons q qs ih =>
    intro p h
    by_cases h1 : tcpOpen q = true
    · by_cases h2 : hsOk q = true
      · simp [connect_netconf, h1, h2] at h
        rw [h]; exact h1
      · simp [connect_netconf, h1, h2] at h
        rcases h with h | h
        · rw [h]; exact h1
        · exact ih p h
    · simp [connect_netconf, h1] at h
      exact ih p h

/-- When no port succeeds, every port in the list was probed. -/
theorem connect_exhausts_ports (tcpOpen hsOk : Nat → Bool) :
    ∀ ports : List Nat, (connect_netconf tcpOpen hsOk ports).2 = none →
      ∀ p ∈ ports, Ev.tcpProbe p ∈ (connect_netconf tcpOpen hsOk ports).1 := by
  intro ports
  induction ports with
  | nil => intro _ p h; simp at h
  | cons q qs ih =>
    intro hnone p hmem
    by_cases h1 : tcpOpen q = true
    · by_cases h2 : hsOk q = true
      · simp [connect_netconf, h1, h2] at hnone
      · simp [connect_netconf, h1, h2] at hnone ⊢
        rcases List.mem_cons.mp hmem with h | h
        · exact Or.inl h
        · exact Or.inr (ih hnone p h)
    · simp [connect_netconf, h1] at hnone ⊢
      rcases List.mem_cons.mp hmem with h | h
      · exact Or.inl h
      · exact Or.inr (ih hnone p h)

/-- Closed form of connect_netconf: the trace is one probe per port, plus
a handshake attempt exactly on open ports, over the failing prefix of the
port list followed by the first succeeding port, and the returned port is
the first in list order whose probe and handshake both succeed. -/
theorem connect_netconf_closed_form (tcpOpen hsOk : Nat → Bool) :
    ∀ ports : List Nat,
      connect_netconf tcpOpen hsOk ports
        = ((ports.takeWhile (fun p => !(tcpOpen p && hsOk p))).flatMap
              (fun p => Ev.tcpProbe p :: (if tcpOpen p then [Ev.hsAttempt p] else []))
            ++ (match ports.find? (fun p => tcpOpen p && hsOk p) with
                | some p => [Ev.tcpProbe p, Ev.hsAttempt p]
                | none => []),
           ports.find? (fun p => tcpOpen p && hsOk p)) := by
  intro ports
  induction ports with
  | nil => rfl
  | cons p ps ih =>
    by_cases h1 : tcpOpen p = true
    · by_cases h2 : hsOk p = true
      · simp [connect_netconf, h1, h2, List.takeWhile_cons, List.find?_cons]
      · simp [connect_netconf, h1, h2, List.takeWhile_cons, List.find?_cons, ih]
    · simp [connect_netconf, h1, List.takeWhile_cons, List.find?_cons, ih]

/-! ### Theorems: claims C5, C2, C3, C6, C7 -/

/-- Claim C5: the session constructor probes the ports in the given order,
performs a TCP reachability pre-check on each port and skips the protocol
handshake for ports whose pre-check fails, returns the port used on the
first successful handshake, and fails (the raised exception, reported as
ConnectionError in the spec's taxonomy) only after all ports in the list
have been probed. -/
theorem claim_C5 (tcpOpen hsOk : Nat → Bool) (ports : List Nat) :
    connect_netconf tcpOpen hsOk ports
      = ((ports.takeWhile (fun p => !(tcpOpen p && hsOk p))).flatMap
            (fun p => Ev.tcpProbe p :: (if tcpOpen p then [Ev.hsAttempt p] else []))
          ++ (match ports.find? (fun p => tcpOpen p && hsOk p) with
              | some p => [Ev.tcpProbe p, Ev.hsAttempt p]
              | none => []),
         ports.find? (fun p => tcpOpen p && hsOk p))
    ∧ (∀ p, Ev.hsAttempt p ∈ (connect_netconf tcpOpen hsOk ports).1 → tcpOpen p = true)
    ∧ ((connect_netconf tcpOpen hsOk ports).2 = none →
        ∀ p ∈ ports, Ev.tcpProbe p ∈ (connect_netconf tcpOpen hsOk ports).1) :=
  ⟨connect_netconf_closed_form tcpOpen hsOk ports,
   fun p => connect_hs_requires_open tcpOpen hsOk ports p,
   connect_exhausts_ports tcpOpen hsOk ports⟩

/-- Claim C2: when connect, capability check and lock succeed and
edit-config fails with an error its handler catches (RPCError or
XMLError), and closing the session succeeds, the iteration issues exactly
the cleanup sequence discard-changes, unlock, close (the finally block
attempts close once more on the already-closed session, caught), the edit
is attempted exactly once (never retried), and no exception escapes, so
the workflow ends in the closed state with the lock-release attempted. -/
theorem claim_C2 (e : DevEnv) (p : Nat)
    (hconn : (connect_netconf e.tcpOpen e.hsOk netconfPorts).2 = some p)
    (hcand : hasCandidate e.caps = true)
    (hlock : e.lockRes = Res.ok)
    (hedit : e.editRes = EditRes.rpcErr ∨ e.editRes = EditRes.xmlErr)
    (hclose : e.closeRes = Res.ok) :
    deviceChanges e
      = ((connect_netconf e.tcpOpen e.hsOk netconfPorts).1
          ++ [Ev.lockA, Ev.editA, Ev.discardA, Ev.unlockA, Ev.closeA, Ev.closeA], false)
    ∧ (deviceChanges e).1.count Ev.editA = 1 := by
  have h1 : deviceChanges e
      = ((connect_netconf e.tcpOpen e.hsOk netconfPorts).1
          ++ [Ev.lockA, Ev.editA, Ev.discardA, Ev.unlockA, Ev.closeA, Ev.closeA], false) := by
    rcases hedit with h | h <;> simp [deviceChanges, hconn, hcand, hlock, h, hclose]
  refine ⟨h1, ?_⟩
  rw [h1]
  simp only [List.count_append]
  rw [List.count_eq_zero.mpr
    (rpc_not_mem_connect_trace e.tcpOpen e.hsOk netconfPorts Ev.editA
      (fun q => by simp) (fun q => by simp))]
  rfl

/-- Concrete environment for the claim C2 witness: port 830 open,
handshake succeeding, candidate advertised, lock succeeding, edit-config
failing with an RPCError, close succeeding. -/
def envEditFail : DevEnv where
  tcpOpen := fun p => p == 830
  hsOk := fun _ => true
  caps := ["urn:ietf:params:netconf:capability:candidate:1.0"]
  lockRes := Res.ok
  editRes := EditRes.rpcErr
  validateRes := Res.ok
  menuInputs := []
  commitRes := Res.ok
  discardRes := Res.ok
  unlockRes := Res.ok
  closeRes := Res.ok

/-- Claim C2, witness: the theorem applied to the concrete environment
envEditFail. -/
theorem claim_C2_witness :
    deviceChanges envEditFail
      = ((connect_netconf envEditFail.tcpOpen envEditFail.hsOk netconfPorts).1
          ++ [Ev.lockA, Ev.editA, Ev.discardA, Ev.unlockA, Ev.closeA, Ev.closeA], false)
    ∧ (deviceChanges envEditFail).1.count Ev.editA = 1 :=
  claim_C2 envEditFail 830 (by decide) (by decide) (by decide)
    (Or.inl (by decide)) (by decide)

/-- Claim C3: in changes mode, whenever the pasted payload (the lines up
to END, joined and stripped) does not contain the substring "&lt;config",
main prints the failure message and returns before opening any connection
or issuing any RPC to any device: the whole event trace is the abort
print, with no tcpProbe, hsAttempt or RPC event for any device list. -/
theorem claim_C3 (inputLines : List String) (devices : List String)
    (env : String → DevEnv) (pre : List String)
    (hread : readUntilEnd inputLines = some pre)
    (hnocfg : strContains (pyStripStr (joinLines pre)) "<config" = false) :
    main_changes inputLines devices env = [Ev.abortNoConfig] := by
  simp [main_changes, hread, hnocfg]

/-- Claim C3, witness: the theorem applied to a pasted payload without a
config element, a one-device list and the concrete environment. -/
theorem claim_C3_witness :
    main_changes ["hostname R1", "END"] ["10.0.0.51"] (fun _ => envEditFail)
      = [Ev.abortNoConfig] :=
  claim_C3 ["hostname R1", "END"] ["10.0.0.51"] (fun _ => envEditFail)
    ["hostname R1"] (by decide) (by decide)

/-- Claim C6: in changes mode, when the connection succeeds but no
advertised capability string contains the substring ":candidate", the
iteration closes the session and (close succeeding) continues to the next
device, without ever issuing a lock, edit-config, validate, commit or
discard-changes RPC. -/
theorem claim_C6 (e : DevEnv) (p : Nat)
    (hconn : (connect_netconf e.tcpOpen e.hsOk netconfPorts).2 = some p)
    (hcand : hasCandidate e.caps = false)
    (hclose : e.closeRes = Res.ok) :
    deviceChanges e
      = ((connect_netconf e.tcpOpen e.hsOk netconfPorts).1 ++ [Ev.closeA], false)
    ∧ Ev.lockA ∉ (deviceChanges e).1
    ∧ Ev.editA ∉ (deviceChanges e).1
    ∧ Ev.validateA ∉ (deviceChanges e).1
    ∧ Ev.commitA ∉ (deviceChanges e).1
    ∧ Ev.discardA ∉ (deviceChanges e).1 := by
  have h1 : deviceChanges e
      = ((connect_netconf e.tcpOpen e.hsOk netconfPorts).1 ++ [Ev.closeA], false) := by
    simp [deviceChanges, hconn, hcand, hclose]
  refine ⟨h1, ?_, ?_, ?_, ?_, ?_⟩ <;>
    · rw [h1]
      simp only [List.mem_append]
      rintro (h | h)
      · exact rpc_not_mem_connect_trace e.tcpOpen e.hsOk netconfPorts _
          (fun q => by simp) (fun q => by simp) h
      · simp at h

/-- Concrete environment for the claim C6 witness: connection succeeding
on port 830 but no candidate capability advertised. -/
def envNoCandidate : DevEnv where
  tcpOpen := fun p => p == 830
  hsOk := fun _ => true
  caps := ["urn:ietf:params:netconf:base:1.1"]
  lockRes := Res.ok
  editRes := EditRes.ok
  validateRes := Res.ok
  menuInputs := []
  commitRes := Res.ok
  discardRes := Res.ok
  unlockRes := Res.ok
  closeRes := Res.ok

/-- Claim C6, witness: the theorem applied to the concrete environment
envNoCandidate. -/
theorem claim_C6_witness :
    deviceChanges envNoCandidate
      = ((connect_netconf envNoCandidate.tcpOpen envNoCandidate.hsOk netconfPorts).1
          ++ [Ev.closeA], false)
    ∧ Ev.lockA ∉ (deviceChanges envNoCandidate).1
    ∧ Ev.editA ∉ (deviceChanges envNoCandidate).1
    ∧ Ev.validateA ∉ (deviceChanges envNoCandidate).1
    ∧ Ev.commitA ∉ (deviceChanges envNoCandidate).1
    ∧ Ev.discardA ∉ (deviceChanges envNoCandidate).1 :=
  claim_C6 envNoCandidate 830 (by decide) (by decide) (by decide)

/-- Claim C7: when the device advertises the validate capability and the
validate RPC fails with an RPCError, the workflow does not abort: it runs
the commit-or-rollback menu and, per the operator's answer, attempts
commit (despite the failed validation) or discard-changes, then unlock and
close, and (close and the chosen action not raising uncatchable errors) no
exception escapes the iteration. -/
theorem claim_C7 (e : DevEnv) (p : Nat) (ch : Choice)
    (hconn : (connect_netconf e.tcpOpen e.hsOk netconfPorts).2 = some p)
    (hcand : hasCandidate e.caps = true)
    (hval : hasValidate e.caps = true)
    (hlock : e.lockRes = Res.ok)
    (hedit : e.editRes = EditRes.ok)
    (hvres : e.validateRes = Res.rpcErr)
    (hmenu : commit_or_rollback e.menuInputs = some ch)
    (hact : menuActionAborts e ch = false)
    (hclose : e.closeRes = Res.ok) :
    deviceChanges e
      = ((connect_netconf e.tcpOpen e.hsOk netconfPorts).1
          ++ [Ev.lockA, Ev.editA, Ev.validateA]
          ++ (match ch with | Choice.commit => [Ev.commitA] | Choice.rollback => [Ev.discardA])
          ++ [Ev.unlockA, Ev.closeA, Ev.closeA], false) := by
  cases ch <;>
    simp [deviceChanges, afterEdit, hconn, hcand, hval, hlock, hedit, hvres, hmenu,
      hact, hclose]

/-- Concrete environment for the claim C7 witness: candidate and validate
advertised, validate failing with an RPCError, the operator answering 1
(commit). -/
def envValidateFail : DevEnv where
  tcpOpen := fun p => p == 830
  hsOk := fun _ => true
  caps := ["urn:ietf:params:netconf:capability:candidate:1.0",
           "urn:ietf:params:netconf:capability:validate:1.1"]
  lockRes := Res.ok
  editRes := EditRes.ok
  validateRes := Res.rpcErr
  menuInputs := [" 1 "]
  commitRes := Res.rpcErr
  discardRes := Res.ok
  unlockRes := Res.ok
  closeRes := Res.ok

/-- Claim C7, witness: the theorem applied to the concrete environment
envValidateFail, where the operator chooses commit and the commit itself
fails with a caught RPCError. -/
theorem claim_C7_witness :
    deviceChanges envValidateFail
      = ((connect_netconf envValidateFail.tcpOpen envValidateFail.hsOk netconfPorts).1
          ++ [Ev.lockA, Ev.editA, Ev.validateA]
          ++ [Ev.commitA]
          ++ [Ev.unlockA, Ev.closeA, Ev.closeA], false) :=
  claim_C7 envValidateFail 830 Choice.commit (by decide) (by decide) (by decide)
    (by decide) (by decide) (by decide) (by decide) (by decide) (by decide)

/-! ## normalize_config_xml (adv_netconf_using_ncclient.py, lines 145-169) -/

/-- The Tail-f namespace declaration the function looks for (local
variable tailf in the source). -/
def tailf : List Char := "xmlns=\"http://tail-f.com/ns/config/1.0\"".data

/-- The NETCONF base namespace declaration it substitutes (local variable
netconf_base in the source). -/
def netconf_base : List Char := "xmlns=\"urn:ietf:params:xml:ns:netconf:base:1.0\"".data

/-- normalize_config_xml: an empty payload is returned as is; otherwise
the payload is stripped of surrounding whitespace and, when the Tail-f
declaration occurs in it, the first occurrence is replaced by the NETCONF
base declaration (str.replace with count 1). -/
def normalize_config_xml (s : List Char) : List Char :=
  if s = [] then s
  else
    if containsSubstr (pyStrip s) tailf then replaceFirst tailf netconf_base (pyStrip s)
    else pyStrip s

/-! ### Generic facts about dropWhile, pyStrip, containsSubstr, occCount
and replaceFirst -/

/-- The head surviving a dropWhile fails the predicate. -/
theorem head_dropWhile_not (p : Char → Bool) :
    ∀ (l : List Char) (c : Char), (l.dropWhile p).head? = some c → p c = false := by
  intro l
  induction l with
  | nil => intro c h; simp [List.dropWhile] at h
  | cons a t ih =>
    intro c h
    cases hp : p a with
    | true =>
      rw [List.dropWhile_cons, hp] at h
      simp at h
      exact ih c h
    | false =>
      rw [List.dropWhile_cons, hp] at h
      simp at h
      rw [← h]
      exact hp

/-- dropWhile is the identity when the head already fails the predicate. -/
theorem dropWhile_eq_self_of_head (p : Char → Bool) (l : List Char) (c : Char)
    (h : l.head? = some c) (hc : p c = false) : l.dropWhile p = l := by
  cases l with
  | nil => simp at h
  | cons a t =>
    have ha : a = c := by simpa using h
    rw [List.dropWhile_cons, ha, hc]
    simp

/-- A prefix transports head? values. -/
theorem head?_eq_of_isPrefix {u v : List Char} {c : Char} (h : u <+: v)
    (hc : u.head? = some c) : v.head? = some c := by
  rcases h with ⟨w, hw⟩
  rw [← hw]
  cases u with
  | nil => simp at hc
  | cons a t => simp at hc ⊢; exact hc

/-- pyStrip of a list is a prefix of its whitespace-left-stripped form. -/
theorem pyStrip_isPrefix_dropWhile (l : List Char) :
    pyStrip l <+: l.dropWhile isSpace := by
  have h : ((l.dropWhile isSpace).reverse.dropWhile isSpace) <:+ (l.dropWhile isSpace).reverse :=
    List.dropWhile_suffix _
  have h2 : pyStrip l <+: ((l.dropWhile isSpace).reverse).reverse := by
    exact List.reverse_prefix.mpr h
  rw [List.reverse_reverse] at h2
  exact h2

/-- The first character of a stripped string is not whitespace. -/
theorem pyStrip_head_not_space {l : List Char} {c : Char}
    (h : (pyStrip l).head? = some c) : isSpace c = false :=
  head_dropWhile_not isSpace l c (head?_eq_of_isPrefix (pyStrip_isPrefix_dropWhile l) h)

/-- The reverse of pyStrip, unfolded. -/
theorem pyStrip_reverse (l : List Char) :
    (pyStrip l).reverse = (l.dropWhile isSpace).reverse.dropWhile isSpace := by
  unfold pyStrip
  rw [List.reverse_reverse]

/-- The last character of a stripped string is not whitespace. -/
theorem pyStrip_last_not_space {l : List Char} {c : Char}
    (h : (pyStrip l).reverse.head? = some c) : isSpace c = false := by
  rw [pyStrip_reverse] at h
  exact head_dropWhile_not isSpace _ c h

/-- pyStrip is the identity on a list whose two ends are not whitespace. -/
theorem pyStrip_eq_self (l : List Char)
    (h1 : ∀ c, l.head? = some c → isSpace c = false)
    (h2 : ∀ c, l.reverse.head? = some c → isSpace c = false) :
    pyStrip l = l := by
  cases l with
  | nil => rfl
  | cons a t =>
    have hd : (a :: t).dropWhile isSpace = a :: t :=
      dropWhile_eq_self_of_head _ _ a rfl (h1 a rfl)
    have hrne : (a :: t).reverse ≠ [] := by simp
    have hrex : ∃ c', (a :: t).reverse.head? = some c' := by
      cases hr : (a :: t).reverse with
      | nil => exact absurd hr hrne
      | cons b u => exact ⟨b, by simp⟩
    rcases hrex with ⟨c', hc'⟩
    have hd2 : (a :: t).reverse.dropWhile isSpace = (a :: t).reverse :=
      dropWhile_eq_self_of_head _ _ c' hc' (h2 c' hc')
    unfold pyStrip
    rw [hd, hd2, List.reverse_reverse]

/-- pyStrip is idempotent. -/
theorem pyStrip_idem (l : List Char) : pyStrip (pyStrip l) = pyStrip l :=
  pyStrip_eq_self _ (fun _ h => pyStrip_head_not_space h)
    (fun _ h => pyStrip_last_not_space h)

/-- containsSubstr unfolded over a cons. -/
theorem containsSubstr_cons (pat : List Char) (c : Char) (l : List Char) :
    containsSubstr (c :: l) pat = (pat.isPrefixOf (c :: l) || containsSubstr l pat) := by
  simp [containsSubstr, List.tails_cons]

/-- occCount unfolded over a cons. -/
theorem occCount_cons (pat : List Char) (c : Char) (l : List Char) :
    occCount pat (c :: l)
      = (if pat.isPrefixOf (c :: l) = true then 1 else 0) + occCount pat l := by
  cases hp : pat.isPrefixOf (c :: l) <;>
    simp [occCount, List.tails_cons, List.filter_cons, hp, Nat.add_comm]

/-- A nonempty pattern is not a prefix of the empty list. -/
theorem isPrefixOf_nil_false (pat : List Char) (h : pat ≠ []) :
    pat.isPrefixOf ([] : List Char) = false := by
  cases pat with
  | nil => exact absurd rfl h
  | cons a t => rfl

/-- A nonempty pattern has no occurrence in the empty list. -/
theorem occCount_nil (pat : List Char) (h : pat ≠ []) : occCount pat [] = 0 := by
  simp [occCount, isPrefixOf_nil_false pat h]

/-- Occurrence presence is equivalent to a positive occurrence count. -/
theorem contains_iff_occ_pos (pat s : List Char) :
    containsSubstr s pat = true ↔ 0 < occCount pat s := by
  constructor
  · intro h
    rcases List.any_eq_true.mp h with ⟨t, ht, hp⟩
    exact List.length_pos_of_mem (List.mem_filter.mpr ⟨ht, hp⟩)
  · intro h
    have hne : s.tails.filter (fun t => pat.isPrefixOf t) ≠ [] := by
      intro hn
      unfold occCount at h
      rw [hn] at h
      simp at h
    rcases List.exists_mem_of_ne_nil _ hne with ⟨t, ht⟩
    rcases List.mem_filter.mp ht with ⟨ht1, ht2⟩
    exact List.any_eq_true.mpr ⟨t, ht1, ht2⟩

/-- Occurrence count is monotone under prepending. -/
theorem occCount_le_append_left (pat l : List Char) :
    ∀ u : List Char, occCount pat l ≤ occCount pat (u ++ l) := by
  intro u
  induction u with
  | nil => simp
  | cons a t ih =>
    rw [List.cons_append, occCount_cons]
    exact le_trans ih (Nat.le_add_left _ _)

/-- Occurrence count is monotone under appending (nonempty pattern). -/
theorem occCount_le_append_right (pat : List Char) (hpat : pat ≠ []) :
    ∀ u w : List Char, occCount pat u ≤ occCount pat (u ++ w) := by
  intro u w
  induction u with
  | nil => simp [occCount_nil pat hpat]
  | cons a t ih =>
    rw [List.cons_append, occCount_cons, occCount_cons]
    refine Nat.add_le_add ?_ ih
    cases hp : pat.isPrefixOf (a :: t) with
    | false => simp
    | true =>
      have hpre : pat <+: a :: t := List.isPrefixOf_iff_prefix.mp hp
      have hpre2 : pat <+: a :: (t ++ w) := by
        have h3 : pat <+: (a :: t) ++ w := hpre.trans (List.prefix_append _ _)
        simpa using h3
      have hp2 : pat.isPrefixOf (a :: (t ++ w)) = true :=
        List.isPrefixOf_iff_prefix.mpr hpre2
      simp [hp2]

/-- Stripping cannot increase the occurrence count. -/
theorem occCount_pyStrip_le (pat : List Char) (hpat : pat ≠ []) (l : List Char) :
    occCount pat (pyStrip l) ≤ occCount pat l := by
  rcases pyStrip_isPrefix_dropWhile l with ⟨w, hw⟩
  rcases List.dropWhile_suffix (l := l) isSpace with ⟨u, hu⟩
  calc occCount pat (pyStrip l) ≤ occCount pat (pyStrip l ++ w) :=
        occCount_le_append_right pat hpat _ _
    _ = occCount pat (l.dropWhile isSpace) := by rw [hw]
    _ ≤ occCount pat (u ++ l.dropWhile isSpace) := occCount_le_append_left _ _ _
    _ = occCount pat l := by rw [hu]

/-- replaceFirst does nothing when the pattern does not occur. -/
theorem replaceFirst_of_not_contains (pat rep : List Char) :
    ∀ s, containsSubstr s pat = false → replaceFirst pat rep s = s := by
  intro s
  induction s with
  | nil => intro _; rfl
  | cons c rest ih =>
    intro h
    rw [containsSubstr_cons] at h
    have h1 : pat.isPrefixOf (c :: rest) = false := by
      cases hp : pat.isPrefixOf (c :: rest)
      · rfl
      · rw [hp] at h; simp at h
    have h2 : containsSubstr rest pat = false := by
      cases hc : containsSubstr rest pat
      · rfl
      · rw [hc] at h; simp at h
    simp [replaceFirst, h1, ih h2]

/-- Any two distinct members force a length of at least two. -/
theorem two_le_length_of_mem_ne {α : Type} {x y : α} {l : List α}
    (hx : x ∈ l) (hy : y ∈ l) (hne : x ≠ y) : 2 ≤ l.length := by
  cases l with
  | nil => simp at hx
  | cons a t =>
    cases t with
    | nil =>
      simp at hx hy
      exact absurd (hx.trans hy.symm) hne
    | cons b t2 => simp [List.length_cons]

/-- Two distinct suffixes that both start with the pattern witness at
least two occurrences. -/
theorem occCount_ge_two (pat s t1 t2 : List Char) (h1 : t1 <:+ s) (h2 : t2 <:+ s)
    (hne : t1 ≠ t2) (hp1 : pat.isPrefixOf t1 = true) (hp2 : pat.isPrefixOf t2 = true) :
    2 ≤ occCount pat s := by
  have m1 : t1 ∈ s.tails.filter (fun t => pat.isPrefixOf t) :=
    List.mem_filter.mpr ⟨(List.mem_tails _ _).mpr h1, hp1⟩
  have m2 : t2 ∈ s.tails.filter (fun t => pat.isPrefixOf t) :=
    List.mem_filter.mpr ⟨(List.mem_tails _ _).mpr h2, hp2⟩
  exact two_le_length_of_mem_ne m1 m2 hne

/-- A prefix of a concatenation either sits inside the first part or
swallows the first part whole. -/
theorem prefix_append_split {pat u v : List Char} (h : pat <+: u ++ v) :
    pat <+: u ∨ (u <+: pat ∧ pat.drop u.length <+: v) := by
  rcases h with ⟨w, hw⟩
  rcases List.append_eq_append_iff.mp hw with ⟨a', ha1, _⟩ | ⟨c', hc1, hc2⟩
  · exact Or.inl ⟨a', ha1.symm⟩
  · refine Or.inr ⟨⟨c', hc1.symm⟩, ?_⟩
    rw [hc1, List.drop_left]
    exact ⟨w, hc2.symm⟩

/-- A suffix of a concatenation is a suffix of the second part or a
nonempty suffix of the first part glued to the whole second part. -/
theorem suffix_append_split {t v : List Char} :
    ∀ u : List Char, t <:+ u ++ v →
      t <:+ v ∨ (∃ w, w <:+ u ∧ w ≠ [] ∧ t = w ++ v) := by
  intro u
  induction u with
  | nil => intro h; exact Or.inl (by simpa using h)
  | cons a u' ihu =>
    intro h
    rcases List.suffix_cons_iff.mp (by simpa using h) with h1 | h1
    · exact Or.inr ⟨a :: u', List.suffix_refl _, by simp, by simpa using h1⟩
    · rcases ihu h1 with h2 | ⟨w, hw1, hw2, hw3⟩
      · exact Or.inl h2
      · exact Or.inr ⟨w, hw1.trans (List.suffix_cons a u'), hw2, hw3⟩

/-- replaceFirst on a string containing the pattern: the string splits as
a ++ pat ++ b, the result is a ++ rep ++ b, and the replaced occurrence is
the first one (no suffix strictly longer than pat ++ b starts with the
pattern). -/
theorem replaceFirst_decomp (pat rep : List Char) (hpat : pat ≠ []) :
    ∀ s, containsSubstr s pat = true →
      ∃ a b, s = a ++ pat ++ b ∧ replaceFirst pat rep s = a ++ rep ++ b ∧
        (∀ t, t <:+ s → pat.length + b.length < t.length → pat.isPrefixOf t = false) := by
  intro s
  induction s with
  | nil =>
    intro h
    simp [containsSubstr, isPrefixOf_nil_false pat hpat] at h
  | cons c rest ih =>
    intro h
    cases hp : pat.isPrefixOf (c :: rest) with
    | false =>
      have hcont : containsSubstr rest pat = true := by
        rw [containsSubstr_cons, hp] at h
        simpa using h
      rcases ih hcont with ⟨a, b, hs, hrf, hmin⟩
      refine ⟨c :: a, b, by simp [hs], by simp [replaceFirst, hp, hrf], ?_⟩
      intro t ht hlen
      rcases List.suffix_cons_iff.mp ht with h1 | h1
      · rw [h1]
        exact hp
      · exact hmin t h1 hlen
    | true =>
      rcases List.isPrefixOf_iff_prefix.mp hp with ⟨b, hb⟩
      have hdrop : (c :: rest).drop pat.length = b := by
        rw [← hb]
        exact List.drop_left _ _
      refine ⟨[], b, by simpa using hb.symm, by simp [replaceFirst, hp, hdrop], ?_⟩
      intro t ht hlen
      exfalso
      have hle := ht.length_le
      have hlen2 : (c :: rest).length = pat.length + b.length := by
        rw [← hb, List.length_append]
      omega

/-! ### Character-level facts about the two concrete declarations -/

/-- The Tail-f declaration is a prefix of no suffix of the NETCONF base
declaration (its only x is its first character, and the two declarations
diverge inside the URL). -/
theorem factA : ∀ t ∈ netconf_base.tails, tailf.isPrefixOf t = false := by decide

/-- No nonempty suffix of the NETCONF base declaration is a prefix of the
Tail-f declaration. -/
theorem factB : ∀ t ∈ netconf_base.tails, t ≠ [] → t.isPrefixOf tailf = false := by decide

/-- No nonempty proper suffix of the Tail-f declaration is a prefix of the
NETCONF base declaration. -/
theorem factC : ∀ t ∈ tailf.tails, t ≠ tailf → t ≠ [] →
    t.isPrefixOf netconf_base = false := by decide

/-- The Tail-f declaration is strictly shorter than the NETCONF base
declaration. -/
theorem factE : tailf.length < netconf_base.length := by decide

/-- Replacing the unique occurrence of the Tail-f declaration leaves a
string in which it no longer occurs: no occurrence can survive in the
pieces around the replacement (there would have been a second occurrence)
and none can straddle the inserted NETCONF base declaration (factA, factB,
factC, factE). -/
theorem no_tailf_in_replaceFirst :
    ∀ s : List Char, occCount tailf s ≤ 1 →
      containsSubstr (replaceFirst tailf netconf_base s) tailf = false := by
  intro s
  induction s with
  | nil => intro _; decide
  | cons c rest ih =>
    intro hocc
    cases hp : tailf.isPrefixOf (c :: rest) with
    | true =>
      rcases List.isPrefixOf_iff_prefix.mp hp with ⟨b, hb⟩
      have hdrop : (c :: rest).drop tailf.length = b := by
        rw [← hb]
        exact List.drop_left _ _
      have hrf : replaceFirst tailf netconf_base (c :: rest) = netconf_base ++ b := by
        simp [replaceFirst, hp, hdrop]
      rw [hrf]
      cases hcz : containsSubstr (netconf_base ++ b) tailf with
      | false => rfl
      | true =>
        exfalso
        rcases List.any_eq_true.mp hcz with ⟨t, htm, htp⟩
        have hts : t <:+ netconf_base ++ b := (List.mem_tails _ _).mp htm
        rcases suffix_append_split netconf_base hts with h1 | ⟨u', hu1, hu2, hu3⟩
        · have hbs : b <:+ c :: rest := by
            rw [← hb]
            exact List.suffix_append _ _
          have hts2 : t <:+ c :: rest := h1.trans hbs
          have hlen1 : t.length ≤ b.length := h1.length_le
          have hlen2 : (c :: rest).length = tailf.length + b.length := by
            rw [← hb, List.length_append]
          have hposp : 0 < tailf.length := by decide
          have hne : t ≠ c :: rest := by
            intro he
            rw [he] at hlen1
            omega
          have h2 := occCount_ge_two tailf (c :: rest) t (c :: rest) hts2
            (List.suffix_refl _) hne htp hp
          omega
        · have htp2 : tailf <+: u' ++ b := by
            rw [← hu3]
            exact List.isPrefixOf_iff_prefix.mp htp
          have hmem : u' ∈ netconf_base.tails := (List.mem_tails _ _).mpr hu1
          rcases prefix_append_split htp2 with h2 | ⟨h2, _⟩
          · have h3 : tailf.isPrefixOf u' = true := List.isPrefixOf_iff_prefix.mpr h2
            rw [factA u' hmem] at h3
            exact Bool.false_ne_true h3
          · have h3 : u'.isPrefixOf tailf = true := List.isPrefixOf_iff_prefix.mpr h2
            rw [factB u' hmem hu2] at h3
            exact Bool.false_ne_true h3
    | false =>
      have hocc' : occCount tailf rest ≤ 1 := by
        rw [occCount_cons, hp] at hocc
        simpa using hocc
      have ihr := ih hocc'
      have hrf : replaceFirst tailf netconf_base (c :: rest)
          = c :: replaceFirst tailf netconf_base rest := by
        simp [replaceFirst, hp]
      rw [hrf, containsSubstr_cons, ihr]
      simp only [Bool.or_false]
      cases hcp : tailf.isPrefixOf (c :: replaceFirst tailf netconf_base rest) with
      | false => rfl
      | true =>
        exfalso
        cases hcr : containsSubstr rest tailf with
        | false =>
          have heq := replaceFirst_of_not_contains tailf netconf_base rest hcr
          rw [heq, hp] at hcp
          exact Bool.false_ne_true hcp
        | true =>
          rcases replaceFirst_decomp tailf netconf_base (by decide) rest hcr with
            ⟨a, b, hs, hr2, hmin⟩
          have hcp' : tailf <+: (c :: a) ++ (netconf_base ++ b) := by
            have h1 := List.isPrefixOf_iff_prefix.mp hcp
            rw [hr2] at h1
            simpa using h1
          have hshape : c :: rest = (c :: a) ++ (tailf ++ b) := by
            rw [hs]
            simp
          rcases prefix_append_split hcp' with h2 | ⟨h2, h3⟩
          · have h4 : tailf <+: (c :: a) ++ (tailf ++ b) :=
              h2.trans (List.prefix_append _ _)
            have h5 : tailf <+: c :: rest := by
              rw [hshape]
              exact h4
            have h6 : tailf.isPrefixOf (c :: rest) = true :=
              List.isPrefixOf_iff_prefix.mpr h5
            rw [hp] at h6
            exact Bool.false_ne_true h6
          · by_cases hq0 : tailf.drop ((c :: a).length) = []
            · have hlen : tailf.length ≤ (c :: a).length := List.drop_eq_nil_iff.mp hq0
              have heq : c :: a = tailf := h2.eq_of_length_le hlen
              have h5 : tailf <+: c :: rest := by
                rw [hshape, heq]
                exact List.prefix_append _ _
              have h6 : tailf.isPrefixOf (c :: rest) = true :=
                List.isPrefixOf_iff_prefix.mpr h5
              rw [hp] at h6
              exact Bool.false_ne_true h6
            · have hqsuf : tailf.drop ((c :: a).length) <:+ tailf := List.drop_suffix _ _
              have hqlen : (tailf.drop ((c :: a).length)).length
                  = tailf.length - (c :: a).length := List.length_drop _ _
              have hqne : tailf.drop ((c :: a).length) ≠ tailf := by
                intro he
                have h7 : (tailf.drop ((c :: a).length)).length = tailf.length := by rw [he]
                have h8 : 0 < (c :: a).length := by simp
                have h9 : 0 < tailf.length := by decide
                omega
              rcases prefix_append_split h3 with h4 | ⟨h4, _⟩
              · have hmem : tailf.drop ((c :: a).length) ∈ tailf.tails :=
                  (List.mem_tails _ _).mpr hqsuf
                have h5 : (tailf.drop ((c :: a).length)).isPrefixOf netconf_base = true :=
                  List.isPrefixOf_iff_prefix.mpr h4
                rw [factC _ hmem hqne hq0] at h5
                exact Bool.false_ne_true h5
              · have h5 : netconf_base.length ≤ (tailf.drop ((c :: a).length)).length :=
                  h4.length_le
                have h6 : (tailf.drop ((c :: a).length)).length ≤ tailf.length :=
                  hqsuf.length_le
                have h7 := factE
                omega

/-- head? of an append with a nonempty left part. -/
theorem head?_append_left {α : Type} (u v : List α) (h : u ≠ []) :
    (u ++ v).head? = u.head? := by
  cases u with
  | nil => exact absurd rfl h
  | cons a t => rfl

/-- The result of replacing the Tail-f declaration inside an already
stripped string is itself stripped: its first and last characters come
from the stripped string or from the (whitespace-free) ends of the
inserted declaration. -/
theorem pyStrip_replaceFirst_fixed (s : List Char)
    (hc : containsSubstr (pyStrip s) tailf = true) :
    pyStrip (replaceFirst tailf netconf_base (pyStrip s))
      = replaceFirst tailf netconf_base (pyStrip s) := by
  rcases replaceFirst_decomp tailf netconf_base (by decide) (pyStrip s) hc with
    ⟨a, b, hs, hrf, _⟩
  rw [hrf]
  apply pyStrip_eq_self
  · intro c' h
    cases a with
    | nil =>
      rw [List.nil_append] at h
      rw [head?_append_left netconf_base b (by decide)] at h
      have hx : netconf_base.head? = some 'x' := by decide
      rw [hx] at h
      have h2 : 'x' = c' := Option.some_inj.mp h
      rw [← h2]
      decide
    | cons a0 a' =>
      have h0 : (((a0 :: a') ++ netconf_base) ++ b).head? = some a0 := rfl
      rw [h0] at h
      have h2 : a0 = c' := Option.some_inj.mp h
      have h1 : (pyStrip s).head? = some a0 := by
        rw [hs]
        rfl
      rw [← h2]
      exact pyStrip_head_not_space h1
  · intro c' h
    by_cases hb0 : b = []
    · subst hb0
      rw [List.append_nil, List.reverse_append] at h
      rw [head?_append_left _ _ (by decide : netconf_base.reverse ≠ [])] at h
      have hx : netconf_base.reverse.head? = some '"' := by decide
      rw [hx] at h
      have h2 : '"' = c' := Option.some_inj.mp h
      rw [← h2]
      decide
    · have hbne : b.reverse ≠ [] := by
        intro hbr
        rw [List.reverse_eq_nil_iff] at hbr
        exact hb0 hbr
      rw [List.reverse_append, head?_append_left _ _ hbne] at h
      have h1 : (pyStrip s).reverse.head? = some c' := by
        rw [hs, List.reverse_append, head?_append_left _ _ hbne]
        exact h
      exact pyStrip_last_not_space h1

/-- Claim C10: normalize_config_xml replaces only the first occurrence of
the Tail-f declaration with the NETCONF base declaration (everything
before and after the first occurrence is kept, and no suffix strictly
longer than the one starting at the replaced occurrence begins with the
declaration); a payload without the declaration is returned with only its
surrounding whitespace stripped; and the function is idempotent on every
payload with at most one occurrence of the declaration. -/
theorem claim_C10 (s : List Char) :
    (containsSubstr s tailf = false → normalize_config_xml s = pyStrip s)
    ∧ (containsSubstr (pyStrip s) tailf = true →
        ∃ a b, pyStrip s = a ++ tailf ++ b
          ∧ normalize_config_xml s = a ++ netconf_base ++ b
          ∧ (∀ t, t <:+ pyStrip s → tailf.length + b.length < t.length →
              tailf.isPrefixOf t = false))
    ∧ (occCount tailf s ≤ 1 →
        normalize_config_xml (normalize_config_xml s) = normalize_config_xml s) := by
  refine ⟨?_, ?_, ?_⟩
  · intro h
    have hocc0 : occCount tailf s = 0 := by
      cases hval : occCount tailf s with
      | zero => rfl
      | succ n =>
        have hpos : 0 < occCount tailf s := by omega
        have h2 := (contains_iff_occ_pos tailf s).mpr hpos
        rw [h] at h2
        exact absurd h2 (by decide)
    have hle := occCount_pyStrip_le tailf (by decide) s
    have hcsf : containsSubstr (pyStrip s) tailf = false := by
      cases hcs : containsSubstr (pyStrip s) tailf with
      | false => rfl
      | true =>
        have h2 := (contains_iff_occ_pos tailf (pyStrip s)).mp hcs
        omega
    by_cases hs0 : s = []
    · rw [hs0]
      decide
    · simp [normalize_config_xml, hs0, hcsf]
  · intro hc
    have hs0 : s ≠ [] := by
      intro he
      rw [he] at hc
      exact absurd hc (by decide)
    rcases replaceFirst_decomp tailf netconf_base (by decide) (pyStrip s) hc with
      ⟨a, b, h1, h2, h3⟩
    exact ⟨a, b, h1, by simp [normalize_config_xml, hs0, hc, h2], h3⟩
  · intro hocc
    by_cases hs0 : s = []
    · rw [hs0]
      decide
    · cases hc : containsSubstr (pyStrip s) tailf with
      | true =>
        have h1 : normalize_config_xml s = replaceFirst tailf netconf_base (pyStrip s) := by
          simp [normalize_config_xml, hs0, hc]
        rw [h1]
        have hzne : replaceFirst tailf netconf_base (pyStrip s) ≠ [] := by
          rcases replaceFirst_decomp tailf netconf_base (by decide) (pyStrip s) hc with
            ⟨a, b, _, h2, _⟩
          rw [h2]
          intro he
          rcases List.append_eq_nil.mp he with ⟨h4, _⟩
          rcases List.append_eq_nil.mp h4 with ⟨_, h5⟩
          exact absurd h5 (by decide)
        have hzstrip := pyStrip_replaceFirst_fixed s hc
        have hle := occCount_pyStrip_le tailf (by decide) s
        have hocc' : occCount tailf (pyStrip s) ≤ 1 := le_trans hle hocc
        have hznotail := no_tailf_in_replaceFirst (pyStrip s) hocc'
        simp [normalize_config_xml, hzne, hzstrip, hznotail]
      | false =>
        have h1 : normalize_config_xml s = pyStrip s := by
          simp [normalize_config_xml, hs0, hc]
        rw [h1]
        by_cases hps : pyStrip s = []
        · rw [hps]
          decide
        · simp [normalize_config_xml, hps, pyStrip_idem, hc]

/-- Claim C10, witness: the theorem applied to a payload without the
Tail-f declaration (returned stripped) and to the declaration itself
(exactly one occurrence, normalisation idempotent). -/
theorem claim_C10_witness :
    (containsSubstr ("<config><a/></config>".data) tailf = false
      ∧ normalize_config_xml ("<config><a/></config>".data)
          = pyStrip ("<config><a/></config>".data))
    ∧ (occCount tailf tailf ≤ 1
      ∧ normalize_config_xml (normalize_config_xml tailf) = normalize_config_xml tailf) :=
  ⟨⟨by decide, (claim_C10 ("<config><a/></config>".data)).1 (by decide)⟩,
   ⟨by decide, (claim_C10 tailf).2.2 (by decide)⟩⟩

end PyLvt
